import Mathlib

/-!
Verification of the Remote Storage Reclamation Engine of xujw3/tgbot
(src/bot.py) against its design document.

The development shallowly embeds the parsing, selection, walking and
orchestration logic of bot.py:

* parse_size_to_bytes (bot.py lines 75-104) is embedded as a character-level
  parser over the uppercased input.  The regex
  ([\d.]+)\s*([KMGTPEZY]?B) anchored at both ends is decomposed into a
  maximal run of digits-and-dots, optional whitespace, and an exact unit
  suffix.  Python float values of decimal tokens are modelled as exact
  rationals; Python int() truncation of a non-negative value is the
  rational floor.  (Python computes in IEEE-754 doubles; on every input
  named by the design document the double result and the exact rational
  result truncate to the same integer.)
* The selection policy of get_magnet (bot.py lines 176-184) is embedded
  over a Candidate record holding the fields the policy reads:
  magnet, size_bytes, and the optional publication-date ordinal.
  Python's stable list.sort with key (size_bytes, -ordinal) is modelled
  by List.insertionSort with the corresponding total preorder, which is
  stable in the same sense.  The float threshold max_size * 0.7 is
  modelled as the exact rational comparison 7 * max <= 10 * size.
* The remote file tree exposed by the /api/fs/list capability is an
  inductive Node: a file with a size, or a directory that carries the
  success flag of its own listing call (ok = false models a network
  failure, a non-200 code, or a malformed content payload: every one of
  these makes the walkers return [] for the subtree) together with its
  named children.
* recursive_collect_files (lines 241-296) and
  recursive_collect_empty_dirs (lines 298-345) become mutual recursions
  over Node; the listing requests they issue are recovered by the
  parallel functions listCallsA / listCallsB.
* cleanup_small_files (lines 391-471) and cleanup_empty_dirs
  (lines 347-389) become functions from a delete capability
  (a success predicate on remove payloads) to a structured outcome plus
  the trace of delete requests issued.  The remote tree that the second
  (empty-directory) phase re-lists after the file deletions have mutated
  the backend is supplied explicitly as the postRoot parameter.
-/

namespace TgBot

/-! ## String helpers

Python's os.path.dirname / os.path.basename (posixpath), str.strip,
str.rstrip("/") and str.lstrip("/") on slash-separated paths. -/

/-- Python's s.rstrip("/"). -/
def rstripSlash (s : String) : String :=
  String.mk ((s.data.reverse.dropWhile (· = '/')).reverse)

/-- Python's s.lstrip("/"). -/
def lstripSlash (s : String) : String :=
  String.mk (s.data.dropWhile (· = '/'))

/-- Python's s.strip(): drop leading and trailing whitespace.  (bot.py
strips entry names before using them, lines 271 and 326.) -/
def trimWS (s : String) : String :=
  String.mk (((s.data.dropWhile Char.isWhitespace).reverse.dropWhile Char.isWhitespace).reverse)

/-- Path join as written in bot.py lines 277 and 329:
"/".join([current_path.rstrip("/"), file_name.lstrip("/")]). -/
def joinPath (p name : String) : String :=
  rstripSlash p ++ "/" ++ lstripSlash name

/-- Split a path at its last slash: first component is the prefix up to
and including the last slash (empty when there is no slash), second is
the final component. -/
def splitAtLastSlash (p : String) : String × String :=
  let r := p.data.reverse
  (String.mk ((r.dropWhile (· ≠ '/')).reverse), String.mk ((r.takeWhile (· ≠ '/')).reverse))

/-- Python's os.path.dirname for POSIX paths: everything before the last
slash; a head consisting only of slashes is kept as is, otherwise its
trailing slashes are stripped. -/
def pyDirname (p : String) : String :=
  let head := (splitAtLastSlash p).1
  if head ≠ "" ∧ ¬ (head.data.all (fun c => decide (c = '/'))) then
    String.mk ((head.data.reverse.dropWhile (· = '/')).reverse)
  else head

/-- Python's os.path.basename for POSIX paths: everything after the last
slash. -/
def pyBasename (p : String) : String :=
  (splitAtLastSlash p).2

/-! ## Size-token parsing: parse_size_to_bytes (bot.py lines 75-104) -/

/-- A character the regex class [\d.] accepts (ASCII digits and the dot;
the embedding restricts the Unicode class \d to ASCII). -/
def isNumChar (c : Char) : Bool :=
  c.isDigit || c = '.'

/-- Decimal value of a digit string. -/
def digitsVal (cs : List Char) : ℕ :=
  cs.foldl (fun n c => 10 * n + (c.toNat - 48)) 0

/-- Python float() applied to a string drawn from [\d.]+, as an exact
rational: an optional integer part, at most one dot, an optional
fractional part, at least one digit in total.  float("5.4.0"), float(".")
and float("") raise ValueError, which bot.py line 91 turns into None. -/
def numToRat (cs : List Char) : Option ℚ :=
  let ip := cs.takeWhile Char.isDigit
  match cs.dropWhile Char.isDigit with
  | [] => if ip = [] then none else some (digitsVal ip : ℚ)
  | c :: fp =>
    if c = '.' ∧ fp.all Char.isDigit ∧ (ip ≠ [] ∨ fp ≠ []) then
      some ((digitsVal ip : ℚ) + (digitsVal fp : ℚ) / 10 ^ fp.length)
    else none

/-- The unit suffix captured by ([KMGTPEZY]?B) and the exponent assigned
to it by the if/elif chain of bot.py lines 94-102: K, M, G, T give
exponents 1-4, while B and the remaining letters P, E, Z, Y fall through
all branches and keep exponent 0. -/
def unitExp (cs : List Char) : Option ℕ :=
  if cs = ['B'] then some 0
  else if cs = ['K', 'B'] then some 1
  else if cs = ['M', 'B'] then some 2
  else if cs = ['G', 'B'] then some 3
  else if cs = ['T', 'B'] then some 4
  else if cs = ['P', 'B'] then some 0
  else if cs = ['E', 'B'] then some 0
  else if cs = ['Z', 'B'] then some 0
  else if cs = ['Y', 'B'] then some 0
  else none

/-- The non-empty case of parse_size_to_bytes over the character list of
the token: uppercase it, split it into the maximal [\d.]+ run, the \s*
run, and the rest, which must be exactly one of the nine unit suffixes;
a failed match or a failed float conversion gives None.  The result is
int(value * 1024 ** exponent), i.e. the floor of the exact product,
since the value is non-negative. -/
def parseSizeAux (l : List Char) : Option ℤ :=
  let u := l.map Char.toUpper
  let num := u.takeWhile isNumChar
  let rest := (u.dropWhile isNumChar).dropWhile Char.isWhitespace
  if num = [] then none
  else
    match unitExp rest, numToRat num with
    | some e, some q => some ⌊q * (1024 : ℚ) ^ e⌋
    | some _, none => none
    | none, _ => none

/-- parse_size_to_bytes (bot.py lines 75-104).  An empty token returns 0
outright (line 78); any other token is analysed by parseSizeAux. -/
def parse_size_to_bytes (s : String) : Option ℤ :=
  if s.data = [] then some 0 else parseSizeAux s.data

/-! ## Candidate selection: get_magnet (bot.py lines 167-184) -/

/-- One parsed provider record, restricted to the fields that the
selection policy of get_magnet reads: the magnet locator, size_bytes as
produced by parse_size_to_bytes, and the publication date as its
toordinal() value (none when the date failed to parse).  The remaining
dict fields built by parse_api_data_entry (name, size_str, date_str,
original_string) are diagnostic and never read by the selection. -/
structure Candidate where
  magnet : String
  size_bytes : ℕ
  date : Option ℕ
deriving DecidableEq, Repr

/-- The date ordinal used by the sort key on bot.py line 182:
x["date"].toordinal() if x["date"] else 0. -/
def dateOrd (c : Candidate) : ℕ :=
  c.date.getD 0

/-- The total preorder realised by Python's ascending stable sort with
key (size_bytes, -ordinal) (bot.py lines 180-182): smaller size first;
among equal sizes the larger (later) ordinal first. -/
def selKeyLe (a b : Candidate) : Prop :=
  a.size_bytes < b.size_bytes ∨ (a.size_bytes = b.size_bytes ∧ dateOrd b ≤ dateOrd a)

instance : DecidableRel selKeyLe := fun a b => by
  unfold selKeyLe
  infer_instance

instance : IsTotal Candidate selKeyLe := by
  constructor
  intro a b
  unfold selKeyLe dateOrd
  omega

instance : IsTrans Candidate selKeyLe := by
  constructor
  intro a b c
  unfold selKeyLe
  omega

/-- max(e["size_bytes"] for e in parsed_entries) (bot.py line 176), as a
fold; it agrees with Python's max on every non-empty list. -/
def maxSizeOf (l : List Candidate) : ℕ :=
  (l.map Candidate.size_bytes).foldl max 0

/-- Lines 177-178: hd_threshold = max_size * 0.7, and the cluster of
entries of size at least the threshold, falling back to all entries when
the filter is empty.  The source computes the threshold in IEEE-754
double arithmetic; the embedding uses the exact rational comparison
size >= (7/10) * max, written 7 * max <= 10 * size over naturals, which
agrees with the double computation on all sizes named by the design
document. -/
def selCluster (l : List Candidate) : List Candidate :=
  let f := l.filter (fun c => decide (7 * maxSizeOf l ≤ 10 * c.size_bytes))
  if f = [] then l else f

/-- Lines 176-184 of get_magnet: take the cluster, sort it stably by
(size_bytes, -ordinal) ascending, and return the magnet of the first
element.  Python's stable sort is modelled by insertionSort over the
selKeyLe preorder. -/
def get_magnet_select (l : List Candidate) : Option String :=
  (List.insertionSort selKeyLe (selCluster l)).head?.map Candidate.magnet

/-- The sizes [100, 95, 70, 30] scenario fixed by the design document's
selection-determinism test. -/
def exSizes : List Candidate :=
  [⟨"m100", 100, none⟩, ⟨"m95", 95, none⟩, ⟨"m70", 70, none⟩, ⟨"m30", 30, none⟩]

/-- Two equal-size candidates whose dates differ: the ordinals are those
of 2023-01-01 and 2024-06-01.  The later-dated entry is listed second,
so its selection is forced by the key, not by stability. -/
def exTie : List Candidate :=
  [⟨"mOld", 50, some 738521⟩, ⟨"mLater", 50, some 739038⟩]

/-! ## The remote tree and the walkers (bot.py lines 241-345) -/

/-- One node of the remote file tree behind the /api/fs/list capability.
A directory carries the outcome of listing it: ok = false models every
absorbed listing failure of bot.py (request exception, code != 200,
malformed content - lines 259-266 and 291-296, same again at 314-321 and
340-345), in which case the walkers return [] for the subtree.
Children are listed with their raw names; the walkers strip names and
skip blank ones exactly as the source does. -/
inductive Node where
  | file (size : ℕ)
  | dir (ok : Bool) (children : List (String × Node))
deriving Repr

/-- Whether a listing entry is a directory (item.get("is_dir", False)). -/
def isDirNode : Node → Bool
  | .file _ => false
  | .dir _ _ => true

mutual
/-- recursive_collect_files (bot.py lines 241-296) with SIZE_THRESHOLD
passed explicitly as t.  Line 243: threshold 0 returns [] before the
listing request.  A failed listing (ok = false) returns [] for the
subtree.  Each named child is either recursed into (directories) or
collected when its size is below the threshold (lines 268-285). -/
def collectFiles (t : ℕ) : Node → String → List String
  | .file _, _ => []
  | .dir ok cs, path =>
    if t = 0 then [] else if ok then collectFilesL t cs path else []
/-- The per-entry loop of recursive_collect_files: blank names are
skipped (lines 274-275), directories are recursed into, files below the
threshold are collected, in listing order. -/
def collectFilesL (t : ℕ) : List (String × Node) → String → List String
  | [], _ => []
  | (name, c) :: rest, path =>
    (if trimWS name = "" then []
     else
       match c with
       | .file sz => if sz < t then [joinPath path (trimWS name)] else []
       | .dir ok cs => collectFiles t (.dir ok cs) (joinPath path (trimWS name))) ++
      collectFilesL t rest path
end

mutual
/-- The listing requests issued by recursive_collect_files: with a
non-zero threshold the walker posts one /api/fs/list request for the
current path (even when the response then fails), and recurses into
named subdirectories only when the listing succeeded. -/
def listCallsA (t : ℕ) : Node → String → List String
  | .file _, _ => []
  | .dir ok cs, path =>
    if t = 0 then [] else path :: (if ok then listCallsAL t cs path else [])
/-- Listing requests issued for the children of one directory during the
small-file walk. -/
def listCallsAL (t : ℕ) : List (String × Node) → String → List String
  | [], _ => []
  | (name, c) :: rest, path =>
    (if trimWS name = "" then []
     else
       match c with
       | .file _ => []
       | .dir ok cs => listCallsA t (.dir ok cs) (joinPath path (trimWS name))) ++
      listCallsAL t rest path
end

/-- sub_dirs of recursive_collect_empty_dirs (bot.py lines 323-331): the
children with a non-blank stripped name that are directories. -/
def namedSubdirs (cs : List (String × Node)) : List (String × Node) :=
  cs.filter (fun en => decide (trimWS en.1 ≠ "") && isDirNode en.2)

mutual
/-- recursive_collect_empty_dirs (bot.py lines 298-345).  A failed
listing absorbs to [].  Named subdirectories are recursed into first;
then line 336 appends the current directory itself iff sub_dirs is empty
and no entry of the raw listing (blank-named entries included) is a
non-directory. -/
def collectEmptyDirs : Node → String → List String
  | .file _, _ => []
  | .dir ok cs, path =>
    if ok then
      collectEmptyDirsL cs path ++
        (if (namedSubdirs cs).isEmpty && cs.all (fun en => isDirNode en.2) then [path] else [])
    else []
/-- The recursion of recursive_collect_empty_dirs over sub_dirs, in
listing order. -/
def collectEmptyDirsL : List (String × Node) → String → List String
  | [], _ => []
  | (name, c) :: rest, path =>
    (if trimWS name ≠ "" ∧ isDirNode c = true then
       collectEmptyDirs c (joinPath path (trimWS name))
     else []) ++
      collectEmptyDirsL rest path
end

mutual
/-- The listing requests issued by recursive_collect_empty_dirs: one per
visited directory, recursing into named subdirectories when the listing
succeeded. -/
def listCallsB : Node → String → List String
  | .file _, _ => []
  | .dir ok cs, path =>
    path :: (if ok then listCallsBL cs path else [])
/-- Listing requests issued for the children of one directory during the
empty-directory walk. -/
def listCallsBL : List (String × Node) → String → List String
  | [], _ => []
  | (name, c) :: rest, path =>
    (if trimWS name ≠ "" ∧ isDirNode c = true then
       listCallsB c (joinPath path (trimWS name))
     else []) ++
      listCallsBL rest path
end

/-! ## The orchestrator (bot.py lines 347-471) -/

/-- Outcome of one delete phase: how many targets were deleted, one
failure entry (the basename named in the error message) per failed
request, and the trace of /api/fs/remove payloads (dir, names) issued. -/
structure PhaseResult where
  deleted : ℕ
  failures : List String
  calls : List (String × List String)
deriving DecidableEq, Repr

/-- The per-directory delete-batch loop of cleanup_small_files
(bot.py lines 414-437): one remove request per group; a success adds
len(file_names) to the total, any failure (exception, bad status, or
application code != 200) appends exactly one error message naming
os.path.basename(parent_dir) and moves on to the next group. -/
def runBatches (del : String → List String → Bool) :
    List (String × List String) → PhaseResult
  | [] => ⟨0, [], []⟩
  | (d, ns) :: rest =>
    let r := runBatches del rest
    if del d ns then ⟨ns.length + r.deleted, r.failures, (d, ns) :: r.calls⟩
    else ⟨r.deleted, pyBasename d :: r.failures, (d, ns) :: r.calls⟩

/-- The per-directory loop of cleanup_empty_dirs (bot.py lines 356-378):
each collected directory is deleted by one single-name remove request
addressed to its parent; successes are counted, each failure appends one
error message naming the basename, and the loop continues. -/
def runDirDeletes (del : String → List String → Bool) : List String → PhaseResult
  | [] => ⟨0, [], []⟩
  | d :: rest =>
    let r := runDirDeletes del rest
    if del (pyDirname d) [pyBasename d] then
      ⟨1 + r.deleted, r.failures, (pyDirname d, [pyBasename d]) :: r.calls⟩
    else ⟨r.deleted, pyBasename d :: r.failures, (pyDirname d, [pyBasename d]) :: r.calls⟩

/-- Insert one file (keyed by its parent directory) into the running
groups, preserving first-insertion order of keys: the embedding of
dir_files[parent_dir].append(file_name) on a Python 3.7+ dict. -/
def addToGroups (groups : List (String × List String)) (dir name : String) :
    List (String × List String) :=
  match groups with
  | [] => [(dir, [name])]
  | (d, ns) :: rest =>
    if d = dir then (d, ns ++ [name]) :: rest else (d, ns) :: addToGroups rest dir name

/-- The grouping loop of cleanup_small_files (bot.py lines 405-409):
collected absolute paths grouped by os.path.dirname, each group keeping
its basenames in collection order. -/
def groupByParent (paths : List String) : List (String × List String) :=
  paths.foldl (fun g p => addToGroups g (pyDirname p) (pyBasename p)) []

/-- The distinct return shapes of cleanup_small_files: the threshold-0
feature-off return of line 393, the early "no files found" return of
line 403, and the composed report of lines 441-468 carrying both
phases' counts and failure lists (the many message strings built there
are renderings of exactly this data). -/
inductive CleanupOutcome where
  | disabled
  | noSmallFiles
  | completed (filesDeleted : ℕ) (fileFailures : List String)
      (dirsDeleted : ℕ) (dirFailures : List String)
deriving DecidableEq, Repr

/-- One run of cleanup_small_files: its outcome, the /api/fs/remove
payloads issued, and the /api/fs/list requests issued. -/
structure CleanupRun where
  outcome : CleanupOutcome
  deleteCalls : List (String × List String)
  listCalls : List String
deriving DecidableEq, Repr

/-- cleanup_empty_dirs (bot.py lines 347-389): walk for empty
directories, then delete each one individually. -/
def cleanup_empty_dirs (del : String → List String → Bool) (root : Node)
    (path : String) : PhaseResult :=
  runDirDeletes del (collectEmptyDirs root path)

/-- cleanup_small_files (bot.py lines 391-471).  Threshold 0 returns the
disabled outcome before any network request (lines 393-394).  When the
small-file walk returns nothing, line 403 returns at once - no delete
request is issued and the empty-directory phase never runs.  Otherwise
the collected files are deleted in per-directory batches and then
cleanup_empty_dirs runs over the remote tree as mutated by those
deletions; that post-deletion tree is supplied explicitly as postRoot,
since the deletions happen on the remote backend. -/
def cleanup_small_files (t : ℕ) (del : String → List String → Bool)
    (root postRoot : Node) (path : String) : CleanupRun :=
  if t = 0 then ⟨.disabled, [], []⟩
  else
    let files := collectFiles t root path
    if files = [] then ⟨.noSmallFiles, [], listCallsA t root path⟩
    else
      let fr := runBatches del (groupByParent files)
      let dr := cleanup_empty_dirs del postRoot path
      ⟨.completed fr.deleted fr.failures dr.deleted dr.failures,
        fr.calls ++ dr.calls,
        listCallsA t root path ++ listCallsB postRoot path⟩

/-- A delete capability that always succeeds. -/
def delAll : String → List String → Bool := fun _ _ => true

/-- A delete capability that fails exactly on the directory "/b". -/
def delNotB : String → List String → Bool := fun d _ => decide (d ≠ "/b")

/-- A root with no undersized files whose only child is an empty
subdirectory. -/
def c2Tree : Node := .dir true [("sub", .dir true [])]

/-- The {/a/x, /a/y, /b/z} tree of the design document's batching test,
rooted at "" so that the collected paths are exactly /a/x, /a/y, /b/z. -/
def abTree : Node :=
  .dir true
    [("a", .dir true [("x", .file 1), ("y", .file 2)]),
     ("b", .dir true [("z", .file 3)])]

/-- The same remote tree after the /a batch succeeded and the /b batch
failed: /a is now empty, /b still holds z. -/
def abTreeAfter : Node :=
  .dir true [("a", .dir true []), ("b", .dir true [("z", .file 3)])]

end TgBot

namespace TgBot

/-! ## Helper lemmas -/

theorem takeWhile_append_of_all {α : Type} (p : α → Bool) (l1 l2 : List α) (c : α)
    (h1 : ∀ a ∈ l1, p a = true) (h2 : p c = false) :
    (l1 ++ c :: l2).takeWhile p = l1 := by
  induction l1 with
  | nil => simp [List.takeWhile_cons, h2]
  | cons x xs ih =>
    have hx : p x = true := h1 x (by simp)
    simp [List.takeWhile_cons, hx, ih (fun a ha => h1 a (by simp [ha]))]

theorem dropWhile_append_of_all {α : Type} (p : α → Bool) (l1 l2 : List α) (c : α)
    (h1 : ∀ a ∈ l1, p a = true) (h2 : p c = false) :
    (l1 ++ c :: l2).dropWhile p = c :: l2 := by
  induction l1 with
  | nil => simp [List.dropWhile_cons, h2]
  | cons x xs ih =>
    have hx : p x = true := h1 x (by simp)
    simp [List.dropWhile_cons, hx, ih (fun a ha => h1 a (by simp [ha]))]

theorem numToRat_ne_nil {cs : List Char} {q : ℚ} (h : numToRat cs = some q) :
    cs ≠ [] := by
  intro hn
  subst hn
  simp [numToRat] at h

theorem numToRat_all {cs : List Char} {q : ℚ} (h : numToRat cs = some q) :
    ∀ a ∈ cs, isNumChar a = true := by
  intro a ha
  have hsplit := List.takeWhile_append_dropWhile (p := Char.isDigit) (l := cs)
  unfold numToRat at h
  cases hdw : cs.dropWhile Char.isDigit with
  | nil =>
    rw [hdw, List.append_nil] at hsplit
    rw [← hsplit] at ha
    have := List.mem_takeWhile_imp ha
    simp [isNumChar, this]
  | cons c fp =>
    rw [hdw] at h hsplit
    simp only [] at h
    split_ifs at h with hcond
    obtain ⟨hc, hfp, -⟩ := hcond
    subst hc
    rw [← hsplit] at ha
    rcases List.mem_append.1 ha with hip | hdot
    · have := List.mem_takeWhile_imp hip
      simp [isNumChar, this]
    · rcases List.mem_cons.1 hdot with rfl | hfpmem
      · simp [isNumChar]
      · have := (List.all_eq_true.1 hfp) a hfpmem
        simp [isNumChar, this]

theorem parse_concat (num : List Char) (q : ℚ) (e : ℕ) (c : Char) (ct : List Char)
    (hq : numToRat num = some q) (hupper : num.map Char.toUpper = num)
    (hcup : (c :: ct).map Char.toUpper = c :: ct)
    (hcnum : isNumChar c = false) (hcws : c.isWhitespace = false)
    (hu : unitExp (c :: ct) = some e) :
    parse_size_to_bytes (String.mk (num ++ c :: ct)) = some ⌊q * (1024 : ℚ) ^ e⌋ := by
  have hnum_all : ∀ a ∈ num, isNumChar a = true := numToRat_all hq
  have hne : (num ++ c :: ct) ≠ [] := by simp
  have hdata : (String.mk (num ++ c :: ct)).data = num ++ c :: ct := rfl
  unfold parse_size_to_bytes
  rw [hdata, if_neg hne]
  unfold parseSizeAux
  rw [List.map_append, hupper, hcup]
  dsimp only
  rw [takeWhile_append_of_all isNumChar num ct c hnum_all hcnum]
  rw [dropWhile_append_of_all isNumChar num ct c hnum_all hcnum]
  rw [if_neg (numToRat_ne_nil hq)]
  simp only [List.dropWhile_cons, hcws, Bool.false_eq_true, if_false]
  rw [hu, hq]

end TgBot

namespace TgBot

/-! ## C3 and C9: size conversion -/

/-- C3 counterexample: the parser truncates rather than rounds.  On
"5.40GB" the exact value is 5.40 * 1024 ^ 3 = (5 + 40/100) * 1024 ^ 3 =
5798205849.6; the claimed round(...) is 5798205850, but
parse_size_to_bytes returns the truncation 5798205849 (as does the
Python source: int(float("5.40") * 1024 ** 3) == 5798205849). -/
theorem size_parse_round_cex :
    parse_size_to_bytes "5.40GB" = some 5798205849 ∧
    round ((((5 : ℕ) : ℚ) + ((40 : ℕ) : ℚ) / 10 ^ 2) * (1024 : ℚ) ^ 3) = 5798205850 ∧
    (5798205849 : ℤ) ≠ 5798205850 := by
  refine ⟨?_, ?_, by decide⟩
  · have h : parse_size_to_bytes "5.40GB"
        = some ⌊(((5 : ℕ) : ℚ) + ((40 : ℕ) : ℚ) / 10 ^ 2) * (1024 : ℚ) ^ 3⌋ := rfl
    rw [h]
    norm_num [Int.floor_eq_iff]
  · rw [round_eq]
    norm_num [Int.floor_eq_iff]

/-- C3 (amended): for every size token of the form number-then-unit the
parser returns the truncation (floor) of value * 1024 ^ exponent - not
the rounding - with exponent 0 for B, 1 for KB, 2 for MB, 3 for GB, 4
for TB as assigned by unitExp; an empty token yields exactly 0;
"100MB" yields 100 * 1024 ^ 2 = 104857600 and "5.40GB" yields
floor(5.40 * 1024 ^ 3) = 5798205849. -/
theorem size_parse_truncates :
    (∀ (num u : List Char) (q : ℚ) (e : ℕ),
        numToRat num = some q → num.map Char.toUpper = num →
        unitExp u = some e →
        parse_size_to_bytes (String.mk (num ++ u)) = some ⌊q * (1024 : ℚ) ^ e⌋) ∧
    parse_size_to_bytes "" = some 0 ∧
    parse_size_to_bytes "100MB" = some 104857600 ∧
    parse_size_to_bytes "5.40GB" = some 5798205849 := by
  refine ⟨?_, by decide, ?_, ?_⟩
  · intro num u q e hq hupper hu
    unfold unitExp at hu
    split_ifs at hu with h1 h2 h3 h4 h5 h6 h7 h8 h9
    · subst h1
      obtain rfl : (0 : ℕ) = e := Option.some.inj hu
      exact parse_concat num q 0 'B' [] hq hupper (by decide) (by decide) (by decide) (by decide)
    · subst h2
      obtain rfl : (1 : ℕ) = e := Option.some.inj hu
      exact parse_concat num q 1 'K' ['B'] hq hupper (by decide) (by decide) (by decide) (by decide)
    · subst h3
      obtain rfl : (2 : ℕ) = e := Option.some.inj hu
      exact parse_concat num q 2 'M' ['B'] hq hupper (by decide) (by decide) (by decide) (by decide)
    · subst h4
      obtain rfl : (3 : ℕ) = e := Option.some.inj hu
      exact parse_concat num q 3 'G' ['B'] hq hupper (by decide) (by decide) (by decide) (by decide)
    · subst h5
      obtain rfl : (4 : ℕ) = e := Option.some.inj hu
      exact parse_concat num q 4 'T' ['B'] hq hupper (by decide) (by decide) (by decide) (by decide)
    · subst h6
      obtain rfl : (0 : ℕ) = e := Option.some.inj hu
      exact parse_concat num q 0 'P' ['B'] hq hupper (by decide) (by decide) (by decide) (by decide)
    · subst h7
      obtain rfl : (0 : ℕ) = e := Option.some.inj hu
      exact parse_concat num q 0 'E' ['B'] hq hupper (by decide) (by decide) (by decide) (by decide)
    · subst h8
      obtain rfl : (0 : ℕ) = e := Option.some.inj hu
      exact parse_concat num q 0 'Z' ['B'] hq hupper (by decide) (by decide) (by decide) (by decide)
    · subst h9
      obtain rfl : (0 : ℕ) = e := Option.some.inj hu
      exact parse_concat num q 0 'Y' ['B'] hq hupper (by decide) (by decide) (by decide) (by decide)
  · have h : parse_size_to_bytes "100MB" = some ⌊((100 : ℕ) : ℚ) * (1024 : ℚ) ^ 2⌋ := rfl
    rw [h]
    norm_num [Int.floor_eq_iff]
  · have h : parse_size_to_bytes "5.40GB"
        = some ⌊(((5 : ℕ) : ℚ) + ((40 : ℕ) : ℚ) / 10 ^ 2) * (1024 : ℚ) ^ 3⌋ := rfl
    rw [h]
    norm_num [Int.floor_eq_iff]

/-- Witness for C3: the general truncation theorem applied to the
concrete token "25KB". -/
theorem size_parse_truncates_witness :
    parse_size_to_bytes (String.mk ("25".data ++ ['K', 'B']))
      = some ⌊((25 : ℕ) : ℚ) * (1024 : ℚ) ^ 1⌋ :=
  size_parse_truncates.1 "25".data ['K', 'B'] ((25 : ℕ) : ℚ) 1 rfl (by decide) (by decide)

/-- C9: a token whose unit is PB, EB, ZB or YB is accepted by the regex
class [KMGTPEZY]?B but falls through every branch of the exponent chain,
so it is converted with exponent 0: the token is read as plain bytes.
In particular "1PB" parses to 1 byte. -/
theorem units_above_tb_exponent_zero :
    (∀ (num : List Char) (q : ℚ) (u : List Char),
        numToRat num = some q → num.map Char.toUpper = num →
        (u = ['P', 'B'] ∨ u = ['E', 'B'] ∨ u = ['Z', 'B'] ∨ u = ['Y', 'B']) →
        parse_size_to_bytes (String.mk (num ++ u)) = some ⌊q⌋) ∧
    parse_size_to_bytes "1PB" = some 1 := by
  constructor
  · intro num q u hq hupper hu
    have hz : ∀ r : ℚ, r * (1024 : ℚ) ^ (0 : ℕ) = r := by intro r; norm_num
    rcases hu with rfl | rfl | rfl | rfl
    · have h := parse_concat num q 0 'P' ['B'] hq hupper (by decide) (by decide) (by decide)
        (by decide)
      rw [h, hz q]
    · have h := parse_concat num q 0 'E' ['B'] hq hupper (by decide) (by decide) (by decide)
        (by decide)
      rw [h, hz q]
    · have h := parse_concat num q 0 'Z' ['B'] hq hupper (by decide) (by decide) (by decide)
        (by decide)
      rw [h, hz q]
    · have h := parse_concat num q 0 'Y' ['B'] hq hupper (by decide) (by decide) (by decide)
        (by decide)
      rw [h, hz q]
  · have h : parse_size_to_bytes "1PB" = some ⌊((1 : ℕ) : ℚ) * (1024 : ℚ) ^ 0⌋ := rfl
    rw [h]
    norm_num

/-- Witness for C9: the general theorem applied to the token "2EB",
which parses to 2 bytes. -/
theorem units_above_tb_witness :
    parse_size_to_bytes (String.mk ("2".data ++ ['E', 'B'])) = some ⌊((2 : ℕ) : ℚ)⌋ :=
  units_above_tb_exponent_zero.1 "2".data ((2 : ℕ) : ℚ) ['E', 'B'] rfl (by decide)
    (Or.inr (Or.inl rfl))

end TgBot

namespace TgBot

/-! ## C1: selection policy -/

theorem foldl_max_eq_or_mem : ∀ (l : List ℕ) (a : ℕ), l.foldl max a = a ∨ l.foldl max a ∈ l := by
  intro l
  induction l with
  | nil => intro a; left; rfl
  | cons x xs ih =>
    intro a
    rw [List.foldl_cons]
    rcases ih (max a x) with h | h
    · rw [h]
      rcases max_choice a x with h2 | h2
      · left; exact h2
      · right; rw [h2]; exact List.mem_cons_self x xs
    · right; exact List.mem_cons_of_mem x h

theorem maxSizeOf_cases (l : List Candidate) :
    maxSizeOf l = 0 ∨ ∃ c ∈ l, c.size_bytes = maxSizeOf l := by
  unfold maxSizeOf
  rcases foldl_max_eq_or_mem (l.map Candidate.size_bytes) 0 with h | h
  · left; exact h
  · right
    obtain ⟨c, hc, hceq⟩ := List.mem_map.1 h
    exact ⟨c, hc, hceq⟩

theorem selClusterFilter_ne_nil (l : List Candidate) (h : l ≠ []) :
    l.filter (fun c => decide (7 * maxSizeOf l ≤ 10 * c.size_bytes)) ≠ [] := by
  rcases maxSizeOf_cases l with h0 | ⟨c, hc, hceq⟩
  · obtain ⟨x, xs, rfl⟩ := List.exists_cons_of_ne_nil h
    have hx : x ∈ (x :: xs).filter (fun c => decide (7 * maxSizeOf (x :: xs) ≤ 10 * c.size_bytes)) := by
      apply List.mem_filter.2
      refine ⟨List.mem_cons_self x xs, ?_⟩
      rw [h0]
      simp
    exact List.ne_nil_of_mem hx
  · have hcf : c ∈ l.filter (fun c => decide (7 * maxSizeOf l ≤ 10 * c.size_bytes)) := by
      apply List.mem_filter.2
      refine ⟨hc, ?_⟩
      rw [hceq]
      simp only [decide_eq_true_eq]
      omega
    exact List.ne_nil_of_mem hcf

theorem selCluster_eq_filter (l : List Candidate) (h : l ≠ []) :
    selCluster l = l.filter (fun c => decide (7 * maxSizeOf l ≤ 10 * c.size_bytes)) := by
  unfold selCluster
  rw [if_neg (selClusterFilter_ne_nil l h)]

theorem selCluster_ne_nil (l : List Candidate) (h : l ≠ []) : selCluster l ≠ [] := by
  rw [selCluster_eq_filter l h]
  exact selClusterFilter_ne_nil l h

theorem selKeyLe_refl (c : Candidate) : selKeyLe c c :=
  Or.inr ⟨rfl, le_refl _⟩

theorem select_head_min (l : List Candidate) (h : l ≠ []) :
    ∃ c, c ∈ selCluster l ∧ get_magnet_select l = some c.magnet ∧
      ∀ d ∈ selCluster l, selKeyLe c d := by
  have hc : selCluster l ≠ [] := selCluster_ne_nil l h
  have hperm := List.perm_insertionSort selKeyLe (selCluster l)
  have hsort := List.sorted_insertionSort selKeyLe (selCluster l)
  cases hs : List.insertionSort selKeyLe (selCluster l) with
  | nil =>
    exfalso
    rw [hs] at hperm
    exact hc hperm.nil_eq.symm
  | cons c t =>
    refine ⟨c, ?_, ?_, ?_⟩
    · have hmem : c ∈ List.insertionSort selKeyLe (selCluster l) := by
        rw [hs]; exact List.mem_cons_self c t
      exact hperm.subset hmem
    · unfold get_magnet_select
      rw [hs]
      rfl
    · intro d hd
      have hd2 : d ∈ c :: t := by
        rw [← hs]
        exact hperm.symm.subset hd
      rcases List.mem_cons.1 hd2 with rfl | hdt
      · exact selKeyLe_refl _
      · rw [hs] at hsort
        exact List.rel_of_sorted_cons hsort d hdt

/-- C1: for every non-empty candidate list the selection keeps exactly
the filter of candidates with size at least (7/10) of the maximum (the
defensive fallback never fires), and returns the magnet of a member of
that cluster that is minimal for the key (size ascending, date ordinal
descending, absent date as ordinal 0) - so among equal sizes the later
date wins.  On the sizes [100, 95, 70, 30] the cluster is {100, 95, 70}
and the size-70 candidate's magnet is returned; between two equal-size
candidates dated 2023-01-01 and 2024-06-01 the later one is returned. -/
theorem selection_selects_min_of_cluster :
    (∀ l : List Candidate, l ≠ [] →
        selCluster l = l.filter (fun c => decide (7 * maxSizeOf l ≤ 10 * c.size_bytes))) ∧
    (∀ l : List Candidate, l ≠ [] →
        ∃ c, c ∈ selCluster l ∧ get_magnet_select l = some c.magnet ∧
          ∀ d ∈ selCluster l, selKeyLe c d) ∧
    (selCluster exSizes).map Candidate.size_bytes = [100, 95, 70] ∧
    get_magnet_select exSizes = some "m70" ∧
    get_magnet_select exTie = some "mLater" :=
  ⟨selCluster_eq_filter, select_head_min, by decide, by decide, by decide⟩

/-- Witness for C1: the cluster-minimum characterisation applied to the
concrete [100, 95, 70, 30] candidate list. -/
theorem selection_min_witness :
    ∃ c, c ∈ selCluster exSizes ∧ get_magnet_select exSizes = some c.magnet ∧
      ∀ d ∈ selCluster exSizes, selKeyLe c d :=
  selection_selects_min_of_cluster.2.1 exSizes (by decide)

end TgBot

namespace TgBot

/-! ## C5 and C6: delete-batch grouping and failure isolation -/

theorem lookup_addToGroups_self (g : List (String × List String)) (d n : String) :
    List.lookup d (addToGroups g d n) = some (((List.lookup d g).getD []) ++ [n]) := by
  induction g with
  | nil =>
    simp [addToGroups, List.lookup]
  | cons p rest ih =>
    obtain ⟨d0, ns⟩ := p
    by_cases hd : d0 = d
    · subst hd
      simp [addToGroups, List.lookup]
    · have hne : (d == d0) = false := beq_eq_false_iff_ne.2 fun h => hd h.symm
      simp [addToGroups, hd, List.lookup, hne, ih]

theorem lookup_addToGroups_other (g : List (String × List String)) (d0 n d : String)
    (h : d ≠ d0) :
    List.lookup d (addToGroups g d0 n) = List.lookup d g := by
  induction g with
  | nil =>
    have hne : (d == d0) = false := beq_eq_false_iff_ne.2 h
    simp [addToGroups, List.lookup, hne]
  | cons p rest ih =>
    obtain ⟨d1, ns⟩ := p
    by_cases hd : d1 = d0
    · subst hd
      have hne : (d == d1) = false := beq_eq_false_iff_ne.2 h
      simp [addToGroups, List.lookup, hne]
    · by_cases hdd : d = d1
      · subst hdd
        simp [addToGroups, hd, List.lookup]
      · have hne : (d == d1) = false := beq_eq_false_iff_ne.2 hdd
        simp [addToGroups, hd, List.lookup, hne, ih]

theorem keys_addToGroups (g : List (String × List String)) (d n : String) :
    (addToGroups g d n).map Prod.fst =
      if d ∈ g.map Prod.fst then g.map Prod.fst else g.map Prod.fst ++ [d] := by
  induction g with
  | nil => simp [addToGroups]
  | cons p rest ih =>
    obtain ⟨d0, ns⟩ := p
    by_cases hd : d0 = d
    · subst hd
      simp [addToGroups]
    · by_cases hm : d ∈ rest.map Prod.fst
      · simp [addToGroups, hd, ih, hm, List.mem_cons]
      · have hnotc : ¬ d = d0 := fun h => hd h.symm
        simp [addToGroups, hd, ih, hm, List.mem_cons, hnotc]

theorem nodup_keys_addToGroups (g : List (String × List String)) (d n : String)
    (h : (g.map Prod.fst).Nodup) :
    ((addToGroups g d n).map Prod.fst).Nodup := by
  rw [keys_addToGroups]
  split_ifs with hm
  · exact h
  · simp [List.nodup_append, h, hm]

theorem groupByParent_lookup_aux :
    ∀ (paths : List String) (g : List (String × List String)) (seen : List String),
      (∀ d : String, List.lookup d g =
          if (seen.filter (fun p => decide (pyDirname p = d))).map pyBasename = [] then none
          else some ((seen.filter (fun p => decide (pyDirname p = d))).map pyBasename)) →
      ∀ d : String,
        List.lookup d (paths.foldl (fun g p => addToGroups g (pyDirname p) (pyBasename p)) g) =
          if ((seen ++ paths).filter (fun p => decide (pyDirname p = d))).map pyBasename = []
          then none
          else some (((seen ++ paths).filter (fun p => decide (pyDirname p = d))).map pyBasename) := by
  intro paths
  induction paths with
  | nil =>
    intro g seen hinv d
    simpa using hinv d
  | cons p ps ih =>
    intro g seen hinv d
    rw [List.foldl_cons]
    have hstep : ∀ d : String,
        List.lookup d (addToGroups g (pyDirname p) (pyBasename p)) =
          if ((seen ++ [p]).filter (fun x => decide (pyDirname x = d))).map pyBasename = []
          then none
          else some (((seen ++ [p]).filter (fun x => decide (pyDirname x = d))).map pyBasename) := by
      intro d
      by_cases hd : pyDirname p = d
      · subst hd
        rw [lookup_addToGroups_self]
        rw [hinv (pyDirname p)]
        simp only [List.filter_append, List.filter_cons, List.filter_nil, decide_eq_true_eq,
          if_pos rfl, List.map_append, List.map_cons, List.map_nil]
        by_cases hA : (seen.filter (fun x => decide (pyDirname x = pyDirname p))).map pyBasename = []
        · simp [hA]
        · simp [hA]
      · have hd2 : d ≠ pyDirname p := fun h => hd h.symm
        rw [lookup_addToGroups_other _ _ _ _ hd2, hinv d]
        have hfalse : decide (pyDirname p = d) = false := by simp [hd]
        simp [List.filter_append, List.filter_cons, hfalse]
    have h := ih (addToGroups g (pyDirname p) (pyBasename p)) (seen ++ [p]) hstep d
    simpa [List.append_assoc] using h

theorem groupByParent_nodup (paths : List String) :
    ((groupByParent paths).map Prod.fst).Nodup := by
  unfold groupByParent
  have haux : ∀ (ps : List String) (g : List (String × List String)),
      (g.map Prod.fst).Nodup →
      ((ps.foldl (fun g p => addToGroups g (pyDirname p) (pyBasename p)) g).map Prod.fst).Nodup := by
    intro ps
    induction ps with
    | nil => intro g h; simpa using h
    | cons p pps ih =>
      intro g h
      rw [List.foldl_cons]
      exact ih _ (nodup_keys_addToGroups _ _ _ h)
  exact haux paths [] (by simp)

theorem groupByParent_lookup (paths : List String) (d : String) :
    List.lookup d (groupByParent paths) =
      if (paths.filter (fun p => decide (pyDirname p = d))).map pyBasename = [] then none
      else some ((paths.filter (fun p => decide (pyDirname p = d))).map pyBasename) := by
  unfold groupByParent
  have h := groupByParent_lookup_aux paths [] [] (by intro d; simp [List.lookup]) d
  simpa using h

theorem runBatches_calls (del : String → List String → Bool)
    (gs : List (String × List String)) :
    (runBatches del gs).calls = gs := by
  induction gs with
  | nil => rfl
  | cons g rest ih =>
    obtain ⟨d0, ns⟩ := g
    by_cases hdel : del d0 ns <;> simp [runBatches, hdel, ih]

theorem runBatches_deleted (del : String → List String → Bool)
    (gs : List (String × List String)) :
    (runBatches del gs).deleted =
      ((gs.filter fun g => del g.1 g.2).map fun g => g.2.length).sum := by
  induction gs with
  | nil => rfl
  | cons g rest ih =>
    obtain ⟨d0, ns⟩ := g
    by_cases hdel : del d0 ns <;> simp [runBatches, List.filter_cons, hdel, ih]

theorem runBatches_failures (del : String → List String → Bool)
    (gs : List (String × List String)) :
    (runBatches del gs).failures =
      (gs.filter fun g => !(del g.1 g.2)).map fun g => pyBasename g.1 := by
  induction gs with
  | nil => rfl
  | cons g rest ih =>
    obtain ⟨d0, ns⟩ := g
    by_cases hdel : del d0 ns <;> simp [runBatches, List.filter_cons, hdel, ih]

/-- C5: the delete phase issues exactly one batch request per group:
the request trace of the batch loop is exactly the group list, the
group keys (parent directories) are pairwise distinct, and the group of
each parent directory holds the basenames of exactly the collected
files with that parent, in collection order.  For the collected files
/a/x, /a/y, /b/z (as collected from a concrete tree) exactly two
requests are issued: (/a, [x, y]) and (/b, [z]). -/
theorem batch_grouping :
    (∀ paths : List String, ((groupByParent paths).map Prod.fst).Nodup) ∧
    (∀ (paths : List String) (d : String),
        List.lookup d (groupByParent paths) =
          if (paths.filter (fun p => decide (pyDirname p = d))).map pyBasename = [] then none
          else some ((paths.filter (fun p => decide (pyDirname p = d))).map pyBasename)) ∧
    (∀ (del : String → List String → Bool) (gs : List (String × List String)),
        (runBatches del gs).calls = gs) ∧
    groupByParent ["/a/x", "/a/y", "/b/z"] = [("/a", ["x", "y"]), ("/b", ["z"])] ∧
    (runBatches delAll (groupByParent (collectFiles 100 abTree ""))).calls =
      [("/a", ["x", "y"]), ("/b", ["z"])] :=
  ⟨groupByParent_nodup, groupByParent_lookup, runBatches_calls, by decide, by
    simp only [collectFiles, collectFilesL]
    decide⟩

/-- C6: each batch succeeds or fails independently: the deleted total is
the sum of the group sizes of the successful batches, the failure list
holds exactly one entry (the parent directory's basename) per failed
batch in order, and the failure list never exceeds the number of
batches attempted.  On the {/a/x, /a/y, /b/z} tree with a capability
failing exactly on /b, the composed cleanup reports 2 files deleted and
the single failure entry for /b. -/
theorem batch_failure_isolation :
    (∀ (del : String → List String → Bool) (gs : List (String × List String)),
        (runBatches del gs).deleted =
          ((gs.filter fun g => del g.1 g.2).map fun g => g.2.length).sum) ∧
    (∀ (del : String → List String → Bool) (gs : List (String × List String)),
        (runBatches del gs).failures =
          (gs.filter fun g => !(del g.1 g.2)).map fun g => pyBasename g.1) ∧
    (∀ (del : String → List String → Bool) (gs : List (String × List String)),
        (runBatches del gs).failures.length ≤ gs.length) ∧
    (cleanup_small_files 100 delNotB abTree abTreeAfter "").outcome =
      .completed 2 ["b"] 1 [] :=
  ⟨runBatches_deleted, runBatches_failures,
    fun del gs => by
      rw [runBatches_failures, List.length_map]
      exact List.length_filter_le _ _,
    by
      simp only [cleanup_small_files, collectFiles, collectFilesL, cleanup_empty_dirs,
        collectEmptyDirs, collectEmptyDirsL]
      decide⟩

end TgBot

namespace TgBot

/-! ## C2 and C7: early returns of the orchestrator -/

/-- C2 counterexample: on a root with no undersized files but a
collectable empty subdirectory, cleanup_small_files returns the
"no small files found" outcome at once - it issues no delete request at
all and never runs the empty-directory walk, although that walk would
have collected /d/sub. -/
theorem cleanup_skips_dir_phase_cex :
    collectFiles 100 c2Tree "/d" = [] ∧
    (cleanup_small_files 100 delAll c2Tree c2Tree "/d").outcome = .noSmallFiles ∧
    (cleanup_small_files 100 delAll c2Tree c2Tree "/d").deleteCalls = [] ∧
    collectEmptyDirs c2Tree "/d" = ["/d/sub"] := by
  refine ⟨?_, ?_, ?_, ?_⟩
  · simp only [collectFiles, collectFilesL]
    decide
  · simp only [cleanup_small_files, collectFiles, collectFilesL]
    decide
  · simp only [cleanup_small_files, collectFiles, collectFilesL]
    decide
  · simp only [collectEmptyDirs, collectEmptyDirsL]
    decide

/-- C2 (amended): with a non-zero threshold, whenever the Mode A walk
returns no undersized files, cleanup_small_files returns the
"no small files found" outcome immediately: zero file deletions, no
delete request of any kind (in particular no empty-directory deletion),
and only the listing calls of the Mode A walk - the Mode B walk is
never started, whatever the state of the remote tree. -/
theorem cleanup_no_files_early_return (t : ℕ) (del : String → List String → Bool)
    (root postRoot : Node) (path : String) (ht : t ≠ 0)
    (hf : collectFiles t root path = []) :
    cleanup_small_files t del root postRoot path =
      ⟨.noSmallFiles, [], listCallsA t root path⟩ := by
  simp [cleanup_small_files, ht, hf]

/-- Witness for C2: the early-return theorem applied to the concrete
tree whose only content is one empty subdirectory. -/
theorem cleanup_no_files_witness :
    cleanup_small_files 100 delAll c2Tree c2Tree "/d" =
      ⟨.noSmallFiles, [], ["/d", "/d/sub"]⟩ := by
  have h := cleanup_no_files_early_return 100 delAll c2Tree c2Tree "/d" (by decide)
    (by simp only [collectFiles, collectFilesL]; decide)
  rw [h]
  simp only [listCallsA, listCallsAL]
  decide

/-- C7 counterexample: when listing the root itself fails, the run is
literally identical to a run over a healthy empty directory - the
"no small files found" success outcome - instead of escalating to an
overall failure.  The failing root even contains an undersized file
that is silently missed. -/
theorem root_failure_noop_cex :
    cleanup_small_files 100 delAll (Node.dir false [("x", Node.file 1)])
        (Node.dir false [("x", Node.file 1)]) "/d" =
      cleanup_small_files 100 delAll (Node.dir true []) (Node.dir true []) "/d" ∧
    (cleanup_small_files 100 delAll (Node.dir false [("x", Node.file 1)])
        (Node.dir false [("x", Node.file 1)]) "/d").outcome = .noSmallFiles := by
  constructor
  · simp only [cleanup_small_files, collectFiles, collectFilesL, listCallsA, listCallsAL]
    decide
  · simp only [cleanup_small_files, collectFiles, collectFilesL]
    decide

/-- C7 (amended): a failure to list the root path itself is absorbed
exactly like any subtree failure: the Mode A walk returns [] for any
such root, and with a non-zero threshold cleanup_small_files then
reports the "no small files found" success outcome - no overall-failure
result is produced. -/
theorem root_listing_failure_absorbed :
    (∀ (t : ℕ) (cs : List (String × Node)) (path : String),
        collectFiles t (.dir false cs) path = []) ∧
    ∀ (t : ℕ) (del : String → List String → Bool) (cs : List (String × Node))
      (postRoot : Node) (path : String), t ≠ 0 →
      (cleanup_small_files t del (.dir false cs) postRoot path).outcome = .noSmallFiles := by
  have h1 : ∀ (t : ℕ) (cs : List (String × Node)) (path : String),
      collectFiles t (.dir false cs) path = [] := by
    intro t cs path
    by_cases ht : t = 0 <;> simp [collectFiles, ht]
  refine ⟨h1, ?_⟩
  intro t del cs postRoot path ht
  simp [cleanup_small_files, ht, h1]

/-- Witness for C7: the absorption theorem applied to a concrete
failing root. -/
theorem root_listing_failure_witness :
    (cleanup_small_files 100 delAll (Node.dir false [("x", Node.file 1)])
        (Node.dir true []) "/d").outcome = .noSmallFiles :=
  root_listing_failure_absorbed.2 100 delAll [("x", Node.file 1)] (Node.dir true []) "/d"
    (by decide)

/-! ## C4: empty-directory detection -/

/-- C4 counterexample: a directory whose only listing entry is a
blank-named subdirectory is collected as empty, although its listing
snapshot does contain a subdirectory entry. -/
theorem empty_dir_blank_name_cex :
    collectEmptyDirs (Node.dir true [("", Node.dir true [])]) "/d" = ["/d"] ∧
    ∃ en ∈ [("", Node.dir true [])], isDirNode en.2 = true := by
  constructor
  · simp only [collectEmptyDirs, collectEmptyDirsL, namedSubdirs]
    decide
  · exact ⟨("", Node.dir true []), by simp, rfl⟩

/-- C4 (amended): a listed directory adds itself to the Mode B result
iff its own listing snapshot has no subdirectory entry with a non-blank
name and no non-directory entry at all; in particular a directory whose
only child is a (non-blank-named) subdirectory is never collected in
the same pass, even when that subdirectory was itself collected as
empty - the parent's walk result is exactly the child's. -/
theorem empty_dir_detection :
    (∀ (cs : List (String × Node)) (path : String),
        collectEmptyDirs (.dir true cs) path = collectEmptyDirsL cs path ++ [path] ↔
          (∀ en ∈ cs, isDirNode en.2 = true → trimWS en.1 = "") ∧
            ∀ en ∈ cs, isDirNode en.2 = true) ∧
    ∀ (name : String) (c : Node) (path : String),
      trimWS name ≠ "" → isDirNode c = true →
      collectEmptyDirs (.dir true [(name, c)]) path =
        collectEmptyDirs c (joinPath path (trimWS name)) := by
  have hcond : ∀ cs : List (String × Node),
      ((namedSubdirs cs).isEmpty && cs.all fun en => isDirNode en.2) = true ↔
        (∀ en ∈ cs, isDirNode en.2 = true → trimWS en.1 = "") ∧
          ∀ en ∈ cs, isDirNode en.2 = true := by
    intro cs
    rw [Bool.and_eq_true, List.isEmpty_iff]
    unfold namedSubdirs
    rw [List.filter_eq_nil_iff, List.all_eq_true]
    constructor
    · rintro ⟨hfil, hall⟩
      refine ⟨?_, hall⟩
      intro en hen hd
      have h := hfil en hen
      simp only [Bool.and_eq_true, decide_eq_true_eq, hd, and_true] at h
      exact not_ne_iff.1 h
    · rintro ⟨h1, h2⟩
      refine ⟨?_, h2⟩
      intro en hen
      have hd := h2 en hen
      have ht := h1 en hen hd
      simp [ht]
  constructor
  · intro cs path
    simp only [collectEmptyDirs, if_true]
    constructor
    · intro h
      by_cases hb : ((namedSubdirs cs).isEmpty && cs.all fun en => isDirNode en.2) = true
      · exact (hcond cs).1 hb
      · rw [if_neg hb, List.append_nil] at h
        exfalso
        have hlen := congrArg List.length h
        simp at hlen
    · intro h
      rw [if_pos ((hcond cs).2 h)]
  · intro name c path hn hd
    simp only [collectEmptyDirs, collectEmptyDirsL, if_true]
    rw [if_pos ⟨hn, hd⟩]
    have hb : ((namedSubdirs [(name, c)]).isEmpty &&
        [(name, c)].all fun en => isDirNode en.2) = false := by
      simp [namedSubdirs, hn, hd]
    rw [hb]
    simp

/-- Witness for C4: the single-subdirectory case of the detection
theorem applied to a concrete tree. -/
theorem empty_dir_detection_witness :
    collectEmptyDirs (Node.dir true [("sub", Node.dir true [])]) "/d" =
      collectEmptyDirs (Node.dir true []) "/d/sub" := by
  have h := empty_dir_detection.2 "sub" (Node.dir true []) "/d" (by decide) rfl
  rw [h]
  have hj : joinPath "/d" (trimWS "sub") = "/d/sub" := by decide
  rw [hj]

/-! ## C8: disabled threshold -/

/-- C8: with threshold 0 the Mode A walk returns [] for every tree
without issuing a single listing call (its result is independent of the
listing capability), and cleanup_small_files returns the disabled
outcome with no network calls at all. -/
theorem disabled_threshold_no_calls :
    (∀ (root : Node) (path : String), collectFiles 0 root path = []) ∧
    (∀ (root : Node) (path : String), listCallsA 0 root path = []) ∧
    ∀ (del : String → List String → Bool) (root postRoot : Node) (path : String),
      cleanup_small_files 0 del root postRoot path = ⟨.disabled, [], []⟩ := by
  refine ⟨?_, ?_, ?_⟩
  · intro root path
    cases root <;> simp [collectFiles]
  · intro root path
    cases root <;> simp [listCallsA]
  · intro del root postRoot path
    simp [cleanup_small_files]

/-! ## C10: deletion of the target root itself -/

/-- C10: a directory whose successful listing has no entries at all is
collected by the Mode B walk - applied to the walk's own root, the
result is exactly [root].  Consequently, whenever the orchestrator
reaches its empty-directory phase (non-zero threshold and a non-empty
Mode A result) and the post-deletion tree at the target root is empty,
a delete request for the root directory itself - addressed to the
root's parent and naming its basename - is among the issued delete
calls. -/
theorem empty_root_collected_and_deleted :
    (∀ path : String, collectEmptyDirs (.dir true []) path = [path]) ∧
    ∀ (t : ℕ) (del : String → List String → Bool) (root : Node) (path : String),
      t ≠ 0 → collectFiles t root path ≠ [] →
      (pyDirname path, [pyBasename path]) ∈
        (cleanup_small_files t del root (.dir true []) path).deleteCalls := by
  have h1 : ∀ path : String, collectEmptyDirs (Node.dir true []) path = [path] := by
    intro path
    simp [collectEmptyDirs, collectEmptyDirsL, namedSubdirs]
  refine ⟨h1, ?_⟩
  intro t del root path ht hf
  simp only [cleanup_small_files, if_neg ht, cleanup_empty_dirs, h1]
  rw [if_neg hf]
  apply List.mem_append.2
  right
  cases hdel : del (pyDirname path) [pyBasename path] <;>
    simp [runDirDeletes, hdel]

/-- Witness for C10: the root-deletion theorem applied to a concrete
run whose Mode A phase collected one file and whose post-deletion root
is empty. -/
theorem empty_root_witness :
    (pyDirname "/d", [pyBasename "/d"]) ∈
      (cleanup_small_files 100 delAll (Node.dir true [("x", Node.file 1)])
        (Node.dir true []) "/d").deleteCalls :=
  empty_root_collected_and_deleted.2 100 delAll (Node.dir true [("x", Node.file 1)]) "/d"
    (by decide) (by simp only [collectFiles, collectFilesL]; decide)

end TgBot
